import Mathlib

/-!
Verification development for `examples/benchmark-device.py`, a scaling benchmark
harness for the bartz BART sampler.  The harness is shallowly embedded below:
pure Python functions become Lean functions, the sweep loop becomes a recursive
function threading the PRNG key and collecting an explicit trace, and the
external collaborators (the JAX PRNG, the bartz sampler, the compute devices and
the wall clock) are modelled as abstract parameter structures, since their code
is outside this repository.  Floating-point values are modelled as rationals.
-/

namespace BenchDevice

/-! ## Arrays

`jax.numpy` arrays of rank 2 and 1, with explicit shapes and rational entries.
Elementwise addition requires equal lengths (numpy would raise on a mismatch
between two distinct non-unit lengths; the harness only ever adds equal-length
vectors). -/

structure Mat where
  rows : Nat
  cols : Nat
  entry : Nat → Nat → ℚ

structure Vec where
  len : Nat
  entry : Nat → ℚ

def vadd (a b : Vec) : Option Vec :=
  if a.len = b.len then some ⟨a.len, fun j => a.entry j + b.entry j⟩ else none

def vsmul (c : ℚ) (a : Vec) : Vec :=
  ⟨a.len, fun j => c * a.entry j⟩

/-! ## PRNG model

`jax.random` is external to the repository.  It is modelled abstractly by a
structure `Rng`:
* `child k i` is the `i`-th key derived from `k`, so that
  `random.split(k, m) = [child k 0, ..., child k (m-1)]`;
* `uniformUnit k i` is the unit-interval uniform draw used at flat index `i`
  of an array generated from key `k` (JAX defines
  `uniform(key, shape, dtype, lo, hi) = lo + (hi - lo) * u` with `u ∈ [0, 1)`);
* `normalDraw k i` is the standard-normal draw at flat index `i`;
* `cosFn` and `piVal` model the external elementwise `jnp.cos` and the
  constant `jnp.pi`.
All of these are deterministic functions of the key, which is what the real
counter-based JAX PRNG guarantees. -/

abbrev Key := Nat

structure Rng where
  child : Key → Nat → Key
  uniformUnit : Key → Nat → ℚ
  normalDraw : Key → Nat → ℚ
  cosFn : ℚ → ℚ
  piVal : ℚ

/-- `random.split(k, m)`. -/
def rsplit (rng : Rng) (k : Key) (m : Nat) : List Key :=
  (List.range m).map (rng.child k)

/-- `random.key(seed)`. -/
def randomKey (seed : Nat) : Key := seed

/-- `random.uniform(key, (rows, cols), float, lo, hi)`. -/
def runiform (rng : Rng) (k : Key) (rows cols : Nat) (lo hi : ℚ) : Mat :=
  ⟨rows, cols, fun i j => lo + (hi - lo) * rng.uniformUnit k (i * cols + j)⟩

/-- `random.normal(key, (n,))`. -/
def rnormalVec (rng : Rng) (k : Key) (n : Nat) : Vec :=
  ⟨n, fun j => rng.normalDraw k j⟩

/-! ## DGP definitions (benchmark-device.py lines 44-52)

`p = 10`, `sigma = 0.1`, and the conditional-mean function
`f(x) = jnp.sum(jnp.cos(2 * jnp.pi / T * x), axis=0)` with `T = 2`. -/

def pScript : Nat := 10

def sigma : ℚ := 1 / 10

def T : ℚ := 2

/-- `f(x)`: sum over the covariate axis of the cosine of the scaled covariate. -/
def f (rng : Rng) (x : Mat) : Vec :=
  ⟨x.cols, fun j =>
    ((List.range x.rows).map (fun i => rng.cosFn (2 * rng.piVal / T * x.entry i j))).sum⟩

/-- `gen_X(key, p, n) = random.uniform(key, (p, n), float, -2, 2)`. -/
def gen_X (rng : Rng) (k : Key) (p n : Nat) : Mat :=
  runiform rng k p n (-2) 2

/-- `gen_y(key, X) = f(X) + sigma * random.normal(key, X.shape[1:])`. -/
def gen_y (rng : Rng) (k : Key) (X : Mat) : Option Vec :=
  vadd (f rng X) (vsmul sigma (rnormalVec rng k X.cols))

/-- The sweep loop's inline response computation (line 72):
`y = f(X) + sigma * random.normal(subkey2, (n,))` with the shape written as the
literal `(n,)` rather than taken from `X`. -/
def yInline (rng : Rng) (k : Key) (X : Mat) (n : Nat) : Option Vec :=
  vadd (f rng X) (vsmul sigma (rnormalVec rng k n))

/-! ## Timer: asynchronous-dispatch aspect (lines 57-62, 96-97)

JAX dispatches device work asynchronously: when the Python call returns, part
of the computation may still be pending on the device.  A timed body is
modelled by its host-side (synchronous) cost together with the device work
still pending when control returns.  `jax.block_until_ready` converts pending
work into synchronous waiting.  The `Timer` context manager records
`time.perf_counter()` on entry and exit and takes no other action, so the
elapsed time it reports is exactly the host-side cost, and whatever was pending
when the body returned is still pending when `__exit__` runs. -/

structure AsyncComp where
  syncCost : ℚ
  asyncPending : ℚ

/-- `jax.block_until_ready(...)` applied as the last action of a body: the
caller waits for all pending device work before returning. -/
def blockUntilReady (c : AsyncComp) : AsyncComp :=
  ⟨c.syncCost + c.asyncPending, 0⟩

structure TimerResult where
  elapsed : ℚ
  pendingAtExit : ℚ

/-- `with Timer() as timer: body` — `__enter__` records the start timestamp,
`__exit__` records `time.perf_counter() - self.start`.  No synchronization
barrier is performed by the scope itself. -/
def timerScope (body : AsyncComp) : TimerResult :=
  ⟨body.syncCost, body.asyncPending⟩

/-! ## Timer: exception aspect (lines 57-62, 96-100)

A body either returns normally or raises.  Python guarantees `__exit__` runs on
both paths; `Timer.__exit__` sets `self.time` and returns `None`, so an
exception is never suppressed.  The `times.setdefault(label, []).append(...)`
statement sits after the `with` block and therefore does not run when the body
raises. -/

inductive Outcome where
  | ok : Outcome
  | exc : String → Outcome
deriving DecidableEq

structure ExnBody where
  cost : ℚ
  outcome : Outcome

/-- `with Timer() as timer: body` — returns the recorded `timer.time` and the
body's outcome.  `__exit__` computes the elapsed time on both exit paths and
returns `None`, so the outcome passes through unmodified. -/
def timerWith (body : ExnBody) : ℚ × Outcome :=
  (body.cost, body.outcome)

/-- Lines 96-100: time the body, then append `(label, timer.time)` to the
results — the append is skipped when the body raised, and the exception
propagates. -/
def timedStep (times : List (String × ℚ)) (label : String) (body : ExnBody) :
    List (String × ℚ) × Outcome :=
  let r := timerWith body
  match r.2 with
  | Outcome.ok => (times ++ [(label, r.1)], Outcome.ok)
  | Outcome.exc e => (times, Outcome.exc e)

/-! ## Sweep orchestration (lines 55-107)

The sampler state returned by `bartz.BART.gbart(...)._mcmc_state` is opaque to
the harness; it is modelled by an abstract handle.  The external collaborators
— the state builder (line 75), `jax.device_put` (line 86) and the whole
build/compile/run/block timed block whose elapsed time the `Timer` reports
(lines 89-97) — are modelled by an environment structure `Env`.  Two
independent runs of the script differ precisely in the `Env` (machine load,
device speed, sampler internals), never in the PRNG. -/

abbrev St := Nat

structure Env where
  mkState : Mat → Option Vec → St
  putState : St → String → St
  runTime : St → List Key → String → ℚ

structure Config where
  nvec : List Nat
  p : Nat
  ntree : Nat
  mcmc_iterations : Nat
  nchains : Nat
  devices : List String

/-- The configuration written at the top of the script (the gpu entry of the
device table is commented out, so only cpu is active). -/
def scriptConfig : Config :=
  { nvec := [100, 200, 500, 1000, 2000, 5000, 10000, 20000, 50000, 100000,
             200000, 500000, 1000000, 2000000, 5000000, 10000000, 20000000,
             50000000, 100000000]
    p := pScript
    ntree := 200
    mcmc_iterations := 1
    nchains := 8
    devices := ["cpu"] }

/-- `key = random.key(202403241634)` (line 55). -/
def scriptSeed : Nat := 202403241634

/-- One consumption of a pseudo-random key: passing it to `random.split`,
`random.uniform` or `random.normal`. -/
inductive KeyUse where
  | splitK : Key → Nat → KeyUse
  | uniformK : Key → KeyUse
  | normalK : Key → KeyUse
deriving DecidableEq

def usedKey : KeyUse → Key
  | KeyUse.splitK k _ => k
  | KeyUse.uniformK k => k
  | KeyUse.normalK k => k

def isNormalEv : KeyUse → Bool
  | KeyUse.normalK _ => true
  | _ => false

/-- Trace of one iteration of the outer `for n in nvec` loop: the key that was
split, the four keys it was split into, the generated dataset, and the timing
entries appended for this size (in append order). -/
structure StepTrace where
  n : Nat
  root : Key
  nextRoot : Key
  xKey : Key
  yKey : Key
  chainRoot : Key
  X : Mat
  y : Option Vec
  times : List (String × ℚ)

structure RunResult where
  steps : List StepTrace
  events : List KeyUse
  err : Option String

/-- The inner `for label, device in devices.items()` loop (lines 82-105).

Each iteration first evaluates `keys = random.split(subkey3, nchains)`
(line 85, consuming `subkey3` again on every iteration), then evaluates
`jax.device_put((state, keys), device)` (line 86) — which raises `NameError`
when `state` was deleted by the `del state` of the previous iteration
(line 104).  The elapsed time of the timed block is supplied by the
environment.  Returns the appended `(label, time)` entries, the key
consumptions, and the error that aborted the loop, if any. -/
def deviceLoop (rng : Rng) (env : Env) (s3 : Key) (nc : Nat) (state : Option St)
    (devs : List String) : List (String × ℚ) × List KeyUse × Option String :=
  match devs with
  | [] => ([], [], none)
  | d :: rest =>
    let keys := rsplit rng s3 nc
    match state with
    | none => ([], [KeyUse.splitK s3 nc], some "NameError")
    | some st =>
      let stDev := env.putState st d
      let t := env.runTime stDev keys d
      let r := deviceLoop rng env s3 nc none rest
      ((d, t) :: r.1, KeyUse.splitK s3 nc :: r.2.1, r.2.2)

/-- The outer `for n in nvec` loop (lines 65-107).

Per size: `key, subkey1, subkey2, subkey3 = random.split(key, 4)` (line 70),
`X = gen_X(subkey1, p, n)` (line 71), the inline
`y = f(X) + sigma * random.normal(subkey2, (n,))` (line 72), the state build
(line 75; `del X, y` and `gc.collect()` release memory and are not modelled),
then the device loop.  An exception raised inside the device loop aborts the
whole run. -/
def sizeLoop (rng : Rng) (env : Env) (cfg : Config) (key : Key) (ns : List Nat) :
    RunResult :=
  match ns with
  | [] => ⟨[], [], none⟩
  | n :: rest =>
    let key2 := rng.child key 0
    let s1 := rng.child key 1
    let s2 := rng.child key 2
    let s3 := rng.child key 3
    let X := gen_X rng s1 cfg.p n
    let y := yInline rng s2 X n
    let state := env.mkState X y
    let dres := deviceLoop rng env s3 cfg.nchains (some state) cfg.devices
    let step : StepTrace := ⟨n, key, key2, s1, s2, s3, X, y, dres.1⟩
    let evs := KeyUse.splitK key 4 :: KeyUse.uniformK s1 :: KeyUse.normalK s2 :: dres.2.1
    match dres.2.2 with
    | some e => ⟨[step], evs, some e⟩
    | none =>
      let r := sizeLoop rng env cfg key2 rest
      ⟨step :: r.steps, evs ++ r.events, r.err⟩

/-- The whole sweep, from `key = random.key(seed)`. -/
def runSweep (rng : Rng) (env : Env) (cfg : Config) (seed : Nat) : RunResult :=
  sizeLoop rng env cfg (randomKey seed) cfg.nvec

/-- The PRNG-and-dataset content of one sweep step — everything claim C1 calls
"split keys and dataset contents": the next-root, X-key, y-noise-key,
chain-keys-root, and the dataset `X`, `y`. -/
def stepData (s : StepTrace) : Key × Key × Key × Key × Mat × Option Vec :=
  (s.nextRoot, s.xKey, s.yKey, s.chainRoot, s.X, s.y)

/-- The results table flattened to `(n, device_label)` pairs in append order. -/
def entryPairs : List StepTrace → List (Nat × String)
  | [] => []
  | s :: rest => s.times.map (fun dt => (s.n, dt.1)) ++ entryPairs rest

/-- The configured `(size, device)` pairs in sweep order: sizes in outer-loop
order, devices in inner-loop order. -/
def sweepPairs (ns : List Nat) (devs : List String) : List (Nat × String) :=
  match ns with
  | [] => []
  | n :: rest => devs.map (fun d => (n, d)) ++ sweepPairs rest devs

/-- The keys consumed by a single-device sweep, in consumption order: at each
size, the current root (split in four), then its children 1, 2, 3 (uniform
draw, normal draw, chain split), with child 0 becoming the next root. -/
def keyList (rng : Rng) (k : Key) : List Nat → List Key
  | [] => []
  | _ :: rest =>
    k :: rng.child k 1 :: rng.child k 2 :: rng.child k 3 ::
      keyList rng (rng.child k 0) rest

/-! ## textbox (lines 109-165)

The annotate call itself is external (matplotlib); what the harness owns is the
assembly of the keyword-argument dictionary: defaults, the location table, and
the merge loop that updates a default dictionary field-by-field when the caller
passes a dictionary for an argument whose current default is a dictionary.
Python dictionaries are modelled as association lists in insertion order with
unique keys; `d[k] = v` keeps the position of an existing key and appends a new
one, `d.update(other)` applies `d[k] = v` for the items of `other` in order,
and `d.pop(k)` removes the entry.  Values are strings, numbers, coordinate
pairs or nested dictionaries. -/

inductive Val where
  | str : String → Val
  | num : ℚ → Val
  | xyV : ℚ → ℚ → Val
  | dict : List (String × Val) → Val

abbrev Dict := List (String × Val)

/-- `d.get(k, None)` / `d[k]`. -/
def alGet : Dict → String → Option Val
  | [], _ => none
  | (k1, v) :: rest, k => if k1 = k then some v else alGet rest k

/-- `d[k] = v`. -/
def alSet : Dict → String → Val → Dict
  | [], k, v => [(k, v)]
  | (k1, v1) :: rest, k, v =>
    if k1 = k then (k1, v) :: rest else (k1, v1) :: alSet rest k v

/-- `d.update(other)`. -/
def alUpdate (d : Dict) : Dict → Dict
  | [] => d
  | (k, v) :: rest => alUpdate (alSet d k v) rest

/-- `d.pop(k)`. -/
def alPop : Dict → String → Dict
  | [], _ => []
  | (k1, v1) :: rest, k => if k1 = k then rest else (k1, v1) :: alPop rest k

/-- `isinstance(v, dict)`. -/
def Val.isDict : Val → Bool
  | Val.dict _ => true
  | _ => false

/-- `isinstance(kwargs.get(k, None), dict)`. -/
def isDictOpt : Option Val → Bool
  | some (Val.dict _) => true
  | _ => false

/-- The entries of a dictionary value (only used under an `isDict` guard). -/
def Val.dictOf : Val → Dict
  | Val.dict d => d
  | _ => []

/-- The entries of an optional dictionary value (only used under an
`isDictOpt` guard). -/
def optDict : Option Val → Dict
  | some (Val.dict d) => d
  | _ => []

def Mq : ℚ := 8

/-- The `locparams` table (lines 134-144); indexing with an unknown location
string raises `KeyError`, modelled as `none`. -/
def locparams (loc : String) : Option Dict :=
  if loc = "lower left" then
    some [("xy", Val.xyV 0 0), ("xytext", Val.xyV Mq Mq),
          ("va", Val.str "bottom"), ("ha", Val.str "left")]
  else if loc = "lower center" then
    some [("xy", Val.xyV (1/2) 0), ("xytext", Val.xyV 0 Mq),
          ("va", Val.str "bottom"), ("ha", Val.str "center")]
  else if loc = "lower right" then
    some [("xy", Val.xyV 1 0), ("xytext", Val.xyV (-Mq) Mq),
          ("va", Val.str "bottom"), ("ha", Val.str "right")]
  else if loc = "center left" then
    some [("xy", Val.xyV 0 (1/2)), ("xytext", Val.xyV Mq 0),
          ("va", Val.str "center"), ("ha", Val.str "left")]
  else if loc = "center center" then
    some [("xy", Val.xyV (1/2) (1/2)), ("xytext", Val.xyV 0 0),
          ("va", Val.str "center"), ("ha", Val.str "center")]
  else if loc = "center right" then
    some [("xy", Val.xyV 1 (1/2)), ("xytext", Val.xyV (-Mq) 0),
          ("va", Val.str "center"), ("ha", Val.str "right")]
  else if loc = "upper left" then
    some [("xy", Val.xyV 0 1), ("xytext", Val.xyV Mq (-Mq)),
          ("va", Val.str "top"), ("ha", Val.str "left")]
  else if loc = "upper center" then
    some [("xy", Val.xyV (1/2) 1), ("xytext", Val.xyV 0 (-Mq)),
          ("va", Val.str "top"), ("ha", Val.str "center")]
  else if loc = "upper right" then
    some [("xy", Val.xyV 1 1), ("xytext", Val.xyV (-Mq) (-Mq)),
          ("va", Val.str "top"), ("ha", Val.str "right")]
  else none

/-- The default kwargs (lines 146-155). -/
def defaultKwargs : Dict :=
  [("xycoords", Val.str "axes fraction"),
   ("textcoords", Val.str "offset points"),
   ("bbox", Val.dict
      [("facecolor", Val.str "white"),
       ("alpha", Val.num (3/4)),
       ("edgecolor", Val.str "#ccc"),
       ("boxstyle", Val.str "round")])]

/-- The merge loop (lines 158-162): iterate over the caller's items; when the
value is a dictionary and the current value under that key in `kwargs` is a
dictionary, update the nested dictionary in place and drop the item from
`newkw`; otherwise leave both untouched. -/
def mergeLoop (kwargs newkw : Dict) : Dict → Dict × Dict
  | [] => (kwargs, newkw)
  | (k, v) :: rest =>
    if v.isDict && isDictOpt (alGet kwargs k) then
      mergeLoop (alSet kwargs k (Val.dict (alUpdate (optDict (alGet kwargs k)) v.dictOf)))
        (alPop newkw k) rest
    else
      mergeLoop kwargs newkw rest

/-- `textbox(ax, text, loc, **kw)` restricted to what the harness owns: the
keyword-argument dictionary finally passed to `ax.annotate`.  Lines 146-163:
start from the defaults, update with the location parameters, merge
dictionary-valued caller arguments into dictionary-valued current values, and
update with the remaining caller arguments. -/
def textbox (loc : String) (kw : Dict) : Option Dict :=
  match locparams loc with
  | none => none
  | some lp =>
    let kwargs := alUpdate defaultKwargs lp
    let r := mergeLoop kwargs kw kw
    some (alUpdate r.1 r.2)

/-! ## Concrete instances used by witnesses and counterexamples -/

/-- A concrete PRNG: the `i`-th child of `k` is `Nat.pair k i + 1`, which is
injective as a function of the pair and strictly larger than `k`. -/
def rngW : Rng :=
  { child := fun k i => Nat.pair k i + 1
    uniformUnit := fun _ _ => 1 / 2
    normalDraw := fun _ _ => 0
    cosFn := fun q => q
    piVal := 3 }

def envW : Env :=
  { mkState := fun _ _ => 0
    putState := fun s _ => s
    runTime := fun _ _ _ => 0 }

/-- A small single-device configuration. -/
def cfgOne : Config :=
  { nvec := [1, 2], p := 2, ntree := 3, mcmc_iterations := 1, nchains := 2
    devices := ["cpu"] }

/-- The same configuration with a second device configured. -/
def cfgTwo : Config :=
  { nvec := [1, 2], p := 2, ntree := 3, mcmc_iterations := 1, nchains := 2
    devices := ["cpu", "gpu"] }

/-- A one-size single-device configuration. -/
def cfgSingleSize : Config :=
  { nvec := [3], p := 2, ntree := 3, mcmc_iterations := 1, nchains := 2
    devices := ["cpu"] }

/-! ## Claims -/

/-- C10: for every key `k` and covariate matrix `X` of shape `(p, n)`,
`gen_y(k, X)` equals `f(X) + sigma * normal(k, (n,))`, so the sweep loop's
inline response computation is equivalent to calling `gen_y(subkey2, X)`. -/
theorem gen_y_refines_inline (rng : Rng) (k : Key) (X : Mat) (p n : Nat)
    (_hrows : X.rows = p) (hcols : X.cols = n) :
    gen_y rng k X = yInline rng k X n := by
  subst hcols
  rfl

theorem gen_y_refines_inline_witness :
    (gen_X rngW 0 2 1).rows = 2 ∧ (gen_X rngW 0 2 1).cols = 1 ∧
      gen_y rngW 3 (gen_X rngW 0 2 1) = yInline rngW 3 (gen_X rngW 0 2 1) 1 :=
  ⟨rfl, rfl, gen_y_refines_inline rngW 3 (gen_X rngW 0 2 1) 2 1 rfl rfl⟩

/-- C5: the elapsed duration is recorded on every exit of the Timer scope,
including when the body raises; an exception propagates to the caller
unmodified, and in that case no elapsed-time entry is appended to the results
table. -/
theorem timer_records_on_all_exits (times : List (String × ℚ)) (label : String)
    (body : ExnBody) :
    (timerWith body).1 = body.cost ∧ (timerWith body).2 = body.outcome ∧
      timedStep times label body =
        (match body.outcome with
         | Outcome.ok => (times ++ [(label, body.cost)], Outcome.ok)
         | Outcome.exc e => (times, Outcome.exc e)) := by
  refine ⟨rfl, rfl, ?_⟩
  cases h : body.outcome <;> simp [timedStep, timerWith, h]

/-- C4 counterexample: the Timer scope itself performs no synchronization
barrier — a body that triggers deferred work and returns without blocking
still has that work pending when the end timestamp is taken, and the recorded
elapsed time excludes it. -/
theorem timer_scope_no_barrier_cex :
    (timerScope (AsyncComp.mk 0 1)).pendingAtExit = 1 ∧
      ¬ ((timerScope (AsyncComp.mk 0 1)).pendingAtExit = 0) ∧
      (timerScope (AsyncComp.mk 0 1)).elapsed = 0 := by
  refine ⟨rfl, ?_, rfl⟩
  simp [timerScope]

/-- C4 (amended): the Timer records timestamps only; the materialization
guarantee comes from the caller, which wraps the timed computation in
`jax.block_until_ready` inside the scope (line 97).  For every body whose last
action is that barrier, no deferred work is pending when the end timestamp is
taken and the elapsed time covers the full cost; a body without the barrier
keeps its pending work at exit. -/
theorem timer_barrier_is_callers (c : AsyncComp) :
    (timerScope (blockUntilReady c)).pendingAtExit = 0 ∧
      (timerScope (blockUntilReady c)).elapsed = c.syncCost + c.asyncPending ∧
      (timerScope c).pendingAtExit = c.asyncPending :=
  ⟨rfl, rfl, rfl⟩

/-- C7: for every key and size `n ≥ 1`, the covariate matrix has shape
`(p, n)` with entries in `[-2, 2]` (an affine image of a unit-uniform source),
and the response has length `n` and equals
`(sum over the p covariates of cos(2*pi/T * x)) + sigma * noise` with `T = 2`
and standard-normal noise. -/
theorem dataset_shapes_and_formula (rng : Rng) (k1 k2 : Key) (p n : Nat)
    (_hn : 1 ≤ n)
    (hu : ∀ k i, 0 ≤ rng.uniformUnit k i ∧ rng.uniformUnit k i < 1) :
    (gen_X rng k1 p n).rows = p ∧ (gen_X rng k1 p n).cols = n ∧
      (∀ i j, (gen_X rng k1 p n).entry i j
          = -2 + 4 * rng.uniformUnit k1 (i * n + j)) ∧
      (∀ i j, (-2 : ℚ) ≤ (gen_X rng k1 p n).entry i j ∧
          (gen_X rng k1 p n).entry i j ≤ 2) ∧
      ∃ yv : Vec, yInline rng k2 (gen_X rng k1 p n) n = some yv ∧ yv.len = n ∧
        ∀ j, yv.entry j =
          ((List.range p).map (fun i =>
              rng.cosFn (2 * rng.piVal / T * (gen_X rng k1 p n).entry i j))).sum
            + sigma * rng.normalDraw k2 j := by
  refine ⟨rfl, rfl, ?_, ?_, ?_⟩
  · intro i j
    show (-2 : ℚ) + (2 - -2) * rng.uniformUnit k1 (i * n + j) = _
    ring
  · intro i j
    have h := hu k1 (i * n + j)
    constructor
    · show (-2 : ℚ) ≤ -2 + (2 - -2) * rng.uniformUnit k1 (i * n + j)
      nlinarith [h.1, h.2]
    · show (-2 : ℚ) + (2 - -2) * rng.uniformUnit k1 (i * n + j) ≤ 2
      nlinarith [h.1, h.2]
  · refine ⟨⟨n, fun j => (f rng (gen_X rng k1 p n)).entry j
        + sigma * rng.normalDraw k2 j⟩, ?_, rfl, fun j => rfl⟩
    simp [yInline, vadd, vsmul, rnormalVec, f, gen_X, runiform]

theorem dataset_shapes_and_formula_witness :
    (1 ≤ 1) ∧ (gen_X rngW 0 1 1).cols = 1 :=
  ⟨le_refl 1,
    (dataset_shapes_and_formula rngW 0 1 1 1 (le_refl 1)
      (fun k i => by constructor <;> norm_num [rngW])).2.1⟩

/-- The error component of the device loop depends only on the shape of the
execution (whether the state binding exists and how many devices remain),
never on the environment. -/
theorem deviceLoop_err_congr (rng : Rng) (e1 e2 : Env) (s3 : Key) (nc : Nat) :
    ∀ (devs : List String) (st1 st2 : Option St), st1.isSome = st2.isSome →
      (deviceLoop rng e1 s3 nc st1 devs).2.2 = (deviceLoop rng e2 s3 nc st2 devs).2.2 := by
  intro devs
  induction devs with
  | nil => intro st1 st2 _; rfl
  | cons d rest ih =>
    intro st1 st2 h
    cases st1 with
    | none =>
      cases st2 with
      | none => rfl
      | some b => simp [Option.isSome] at h
    | some a =>
      cases st2 with
      | none => simp [Option.isSome] at h
      | some b =>
        show (deviceLoop rng e1 s3 nc none rest).2.2
            = (deviceLoop rng e2 s3 nc none rest).2.2
        exact ih none none rfl

/-- The PRNG-and-dataset projection of the sweep trace does not depend on the
environment (machine, devices, sampler, clock). -/
theorem sizeLoop_data_env_indep (rng : Rng) (cfg : Config) (e1 e2 : Env) :
    ∀ (ns : List Nat) (key : Key),
      (sizeLoop rng e1 cfg key ns).steps.map stepData
        = (sizeLoop rng e2 cfg key ns).steps.map stepData := by
  intro ns
  induction ns with
  | nil => intro key; rfl
  | cons n rest ih =>
    intro key
    have herr := deviceLoop_err_congr rng e1 e2 (rng.child key 3) cfg.nchains
      cfg.devices
      (some (e1.mkState (gen_X rng (rng.child key 1) cfg.p n)
        (yInline rng (rng.child key 2) (gen_X rng (rng.child key 1) cfg.p n) n)))
      (some (e2.mkState (gen_X rng (rng.child key 1) cfg.p n)
        (yInline rng (rng.child key 2) (gen_X rng (rng.child key 1) cfg.p n) n)))
      rfl
    simp only [sizeLoop]
    rw [herr]
    cases h2 : (deviceLoop rng e2 (rng.child key 3) cfg.nchains
        (some (e2.mkState (gen_X rng (rng.child key 1) cfg.p n)
          (yInline rng (rng.child key 2) (gen_X rng (rng.child key 1) cfg.p n) n)))
        cfg.devices).2.2 with
    | some e => rfl
    | none => simp [stepData, ih]

/-- C1: for a fixed root seed and identical configuration, two independent
runs (modelled as runs against two arbitrary environments, the PRNG being the
same deterministic algorithm) derive bit-identical sequences of split keys —
next-root, X-key, y-noise-key and chain-keys-root at each size — and
bit-identical dataset contents `X` and `y` at every size. -/
theorem sweep_keys_datasets_deterministic (rng : Rng) (cfg : Config) (seed : Nat)
    (e1 e2 : Env) :
    (runSweep rng e1 cfg seed).steps.map stepData
      = (runSweep rng e2 cfg seed).steps.map stepData :=
  sizeLoop_data_env_indep rng cfg e1 e2 cfg.nvec (randomKey seed)

/-- The device loop performs no normal draw. -/
theorem deviceLoop_no_normal (rng : Rng) (env : Env) (s3 : Key) (nc : Nat) :
    ∀ (devs : List String) (state : Option St),
      (deviceLoop rng env s3 nc state devs).2.1.countP isNormalEv = 0 := by
  intro devs
  induction devs with
  | nil => intro state; rfl
  | cons d rest ih =>
    intro state
    cases state <;> simp [deviceLoop, isNormalEv, ih, List.countP_cons]

/-- Each executed sweep step draws response noise exactly once, and the `y` it
records (and hands to the state builder) is the inline computation from the
step's y-noise key. -/
theorem sizeLoop_normal_once (rng : Rng) (env : Env) (cfg : Config) :
    ∀ (ns : List Nat) (key : Key),
      (sizeLoop rng env cfg key ns).events.countP isNormalEv
          = (sizeLoop rng env cfg key ns).steps.length ∧
        (sizeLoop rng env cfg key ns).steps.map (fun s => s.y)
          = (sizeLoop rng env cfg key ns).steps.map
              (fun s => yInline rng s.yKey s.X s.n) := by
  intro ns
  induction ns with
  | nil => intro key; exact ⟨rfl, rfl⟩
  | cons n rest ih =>
    intro key
    simp only [sizeLoop]
    cases h2 : (deviceLoop rng env (rng.child key 3) cfg.nchains
        (some (env.mkState (gen_X rng (rng.child key 1) cfg.p n)
          (yInline rng (rng.child key 2) (gen_X rng (rng.child key 1) cfg.p n) n)))
        cfg.devices).2.2 with
    | some e =>
      refine ⟨?_, rfl⟩
      have h0 := deviceLoop_no_normal rng env (rng.child key 3) cfg.nchains
        cfg.devices (some (env.mkState (gen_X rng (rng.child key 1) cfg.p n)
          (yInline rng (rng.child key 2) (gen_X rng (rng.child key 1) cfg.p n) n)))
      simp [List.countP_cons, isNormalEv, h0]
    | none =>
      have h0 := deviceLoop_no_normal rng env (rng.child key 3) cfg.nchains
        cfg.devices (some (env.mkState (gen_X rng (rng.child key 1) cfg.p n)
          (yInline rng (rng.child key 2) (gen_X rng (rng.child key 1) cfg.p n) n)))
      refine ⟨?_, ?_⟩
      · simp [List.countP_append, List.countP_cons, isNormalEv, h0, (ih _).1]
      · simp [(ih _).2]

/-- C8 counterexample: a one-size sweep draws response noise exactly once, not
twice — there is a single `random.normal` consumption per step, so no second,
discarded response draw exists. -/
theorem response_generated_twice_cex :
    (runSweep rngW envW cfgSingleSize 0).steps.length = 1 ∧
      (runSweep rngW envW cfgSingleSize 0).events.countP isNormalEv = 1 ∧
      ¬ ((runSweep rngW envW cfgSingleSize 0).events.countP isNormalEv = 2) := by
  refine ⟨rfl, rfl, ?_⟩
  decide

/-- C8 (amended): at every sweep step the response `y` is generated exactly
once — one `random.normal` draw per executed step, keyed by the step's
y-noise key — and that single response is the one recorded and passed to the
state builder. -/
theorem response_generated_once (rng : Rng) (env : Env) (cfg : Config) (seed : Nat) :
    (runSweep rng env cfg seed).events.countP isNormalEv
        = (runSweep rng env cfg seed).steps.length ∧
      (runSweep rng env cfg seed).steps.map (fun s => s.y)
        = (runSweep rng env cfg seed).steps.map
            (fun s => yInline rng s.yKey s.X s.n) :=
  sizeLoop_normal_once rng env cfg cfg.nvec (randomKey seed)

/-- When the device loop completes without error, the labels of its appended
entries are exactly the configured device labels, in order.  (With the state
binding present, the loop only survives past the first device if no second
device follows.) -/
theorem deviceLoop_ok_labels (rng : Rng) (env : Env) (s3 : Key) (nc : Nat) (st : St) :
    ∀ devs : List String,
      (deviceLoop rng env s3 nc (some st) devs).2.2 = none →
      (deviceLoop rng env s3 nc (some st) devs).1.map Prod.fst = devs := by
  intro devs
  match devs with
  | [] => intro _; rfl
  | [d] => intro _; rfl
  | d :: d2 :: rest => intro h; simp [deviceLoop] at h

/-- On a successful run, the `(n, label)` pairs of the results table are
exactly the configured pairs in sweep order. -/
theorem sizeLoop_entry_pairs (rng : Rng) (env : Env) (cfg : Config) :
    ∀ (ns : List Nat) (key : Key), (sizeLoop rng env cfg key ns).err = none →
      entryPairs (sizeLoop rng env cfg key ns).steps = sweepPairs ns cfg.devices := by
  intro ns
  induction ns with
  | nil => intro key _; rfl
  | cons n rest ih =>
    intro key h
    rw [sizeLoop] at h ⊢
    cases h2 : (deviceLoop rng env (rng.child key 3) cfg.nchains
        (some (env.mkState (gen_X rng (rng.child key 1) cfg.p n)
          (yInline rng (rng.child key 2) (gen_X rng (rng.child key 1) cfg.p n) n)))
        cfg.devices).2.2 with
    | some e => rw [h2] at h; simp at h
    | none =>
      rw [h2] at h
      dsimp only at h ⊢
      have hl := deviceLoop_ok_labels rng env (rng.child key 3) cfg.nchains
        (env.mkState (gen_X rng (rng.child key 1) cfg.p n)
          (yInline rng (rng.child key 2) (gen_X rng (rng.child key 1) cfg.p n) n))
        cfg.devices h2
      have hhead : ∀ ts : List (String × ℚ), ts.map Prod.fst = cfg.devices →
          ts.map (fun dt => (n, dt.1)) = cfg.devices.map (fun d => (n, d)) := by
        intro ts hts
        rw [← hts, List.map_map]
        rfl
      rw [entryPairs, sweepPairs, ih (rng.child key 0) h]
      congr 1
      exact hhead _ hl

theorem sweepPairs_length (ns : List Nat) (devs : List String) :
    (sweepPairs ns devs).length = ns.length * devs.length := by
  induction ns with
  | nil => simp [sweepPairs]
  | cons n rest ih => simp [sweepPairs, ih, Nat.succ_mul, Nat.add_comm]

theorem sweepPairs_fst_mem (devs : List String) (x : Nat × String) :
    ∀ ns : List Nat, x ∈ sweepPairs ns devs → x.1 ∈ ns := by
  intro ns
  induction ns with
  | nil => intro h; simp [sweepPairs] at h
  | cons n rest ih =>
    intro h
    rw [sweepPairs, List.mem_append] at h
    rcases h with h | h
    · obtain ⟨d, _, rfl⟩ := List.mem_map.mp h
      exact List.mem_cons_self n rest
    · exact List.mem_cons_of_mem n (ih h)

theorem sweepPairs_nodup (ns : List Nat) (devs : List String)
    (h1 : ns.Nodup) (h2 : devs.Nodup) : (sweepPairs ns devs).Nodup := by
  induction ns with
  | nil => simp [sweepPairs]
  | cons n rest ih =>
    rw [sweepPairs, List.nodup_append]
    refine ⟨h2.map (fun a b hab => ?_), ih (List.nodup_cons.mp h1).2, ?_⟩
    · exact congrArg Prod.snd hab
    · intro x hx hx2
      obtain ⟨d, _, rfl⟩ := List.mem_map.mp hx
      exact (List.nodup_cons.mp h1).1 (sweepPairs_fst_mem devs (n, d) rest hx2)

/-- C6: after a successful complete run, the results table contains exactly
`|sizes| * |devices|` elapsed-time entries, keyed by the configured
`(size, device)` pairs in sweep order (sizes outer, devices inner), with no
reordering, no skipping and (for duplicate-free configuration lists) no
duplicate pair. -/
theorem results_table_complete (rng : Rng) (env : Env) (cfg : Config) (seed : Nat)
    (h : (runSweep rng env cfg seed).err = none) :
    entryPairs (runSweep rng env cfg seed).steps = sweepPairs cfg.nvec cfg.devices ∧
      (entryPairs (runSweep rng env cfg seed).steps).length
        = cfg.nvec.length * cfg.devices.length ∧
      (cfg.nvec.Nodup → cfg.devices.Nodup →
        (entryPairs (runSweep rng env cfg seed).steps).Nodup) := by
  have he : entryPairs (runSweep rng env cfg seed).steps
      = sweepPairs cfg.nvec cfg.devices :=
    sizeLoop_entry_pairs rng env cfg cfg.nvec (randomKey seed) h
  exact ⟨he, by rw [he, sweepPairs_length],
    fun h1 h2 => by rw [he]; exact sweepPairs_nodup cfg.nvec cfg.devices h1 h2⟩

theorem results_table_complete_witness :
    entryPairs (runSweep rngW envW cfgOne 0).steps
      = sweepPairs cfgOne.nvec cfgOne.devices :=
  (results_table_complete rngW envW cfgOne 0 rfl).1

/-- C3: the sampler state is built exactly once per size, outside the device
loop, but the `del state` inside the device loop deletes the only binding: at
the concrete input with two configured devices the second iteration's
`jax.device_put` reads the deleted name and the run aborts with `NameError`,
so the second device's timing never receives the state; the same sweep with
the single configured device completes. -/
theorem state_deleted_before_second_device :
    (runSweep rngW envW cfgTwo 0).err = some "NameError" ∧
      (runSweep rngW envW cfgOne 0).err = none :=
  ⟨rfl, rfl⟩

/-- Every key consumed from root `k` onwards is at least `k`, provided key
derivation is strictly increasing. -/
theorem keyList_lower (rng : Rng) (hprog : ∀ k i, k < rng.child k i) :
    ∀ (ns : List Nat) (k x : Key), x ∈ keyList rng k ns → k ≤ x := by
  intro ns
  induction ns with
  | nil => intro k x hx; simp [keyList] at hx
  | cons n rest ih =>
    intro k x hx
    rw [keyList] at hx
    simp only [List.mem_cons] at hx
    rcases hx with rfl | rfl | rfl | rfl | hx
    · exact le_refl x
    · exact le_of_lt (hprog k 1)
    · exact le_of_lt (hprog k 2)
    · exact le_of_lt (hprog k 3)
    · exact le_of_lt (lt_of_lt_of_le (hprog k 0) (ih _ _ hx))

/-- Every key consumed from root `k` onwards is either `k` itself or a child
of some key at least `k`. -/
theorem keyList_shape (rng : Rng) (hprog : ∀ k i, k < rng.child k i) :
    ∀ (ns : List Nat) (k x : Key), x ∈ keyList rng k ns →
      x = k ∨ ∃ q j, x = rng.child q j ∧ k ≤ q := by
  intro ns
  induction ns with
  | nil => intro k x hx; simp [keyList] at hx
  | cons n rest ih =>
    intro k x hx
    rw [keyList] at hx
    simp only [List.mem_cons] at hx
    rcases hx with rfl | rfl | rfl | rfl | hx
    · exact Or.inl rfl
    · exact Or.inr ⟨k, 1, rfl, le_refl k⟩
    · exact Or.inr ⟨k, 2, rfl, le_refl k⟩
    · exact Or.inr ⟨k, 3, rfl, le_refl k⟩
    · rcases ih _ _ hx with rfl | ⟨q, j, rfl, hq⟩
      · exact Or.inr ⟨k, 0, rfl, le_refl k⟩
      · exact Or.inr ⟨q, j, rfl, le_trans (le_of_lt (hprog k 0)) hq⟩

/-- A nonzero-index child of the current root does not reappear among the keys
consumed from the next root onwards. -/
theorem child_not_in_tail (rng : Rng)
    (hinj : ∀ k i k2 i2, rng.child k i = rng.child k2 i2 → k = k2 ∧ i = i2)
    (hprog : ∀ k i, k < rng.child k i)
    (ns : List Nat) (k : Key) (i : Nat) (hi : i ≠ 0) :
    rng.child k i ∉ keyList rng (rng.child k 0) ns := by
  intro hmem
  rcases keyList_shape rng hprog ns (rng.child k 0) (rng.child k i) hmem with
    heq | ⟨q, j, heq, hq⟩
  · exact hi (hinj k i k 0 heq).2
  · obtain ⟨rfl, rfl⟩ := hinj k i q j heq
    exact absurd hq (not_le_of_lt (hprog k 0))

/-- With injective derivation and strictly increasing keys, no key appears
twice in the consumption sequence of a single-device sweep. -/
theorem keyList_nodup (rng : Rng)
    (hinj : ∀ k i k2 i2, rng.child k i = rng.child k2 i2 → k = k2 ∧ i = i2)
    (hprog : ∀ k i, k < rng.child k i) :
    ∀ (ns : List Nat) (k : Key), (keyList rng k ns).Nodup := by
  intro ns
  induction ns with
  | nil => intro k; simp [keyList]
  | cons n rest ih =>
    intro k
    rw [keyList]
    refine List.nodup_cons.mpr ⟨?_, ?_⟩
    · simp only [List.mem_cons]
      rintro (h1 | h1 | h1 | h1)
      · exact absurd h1.symm (Nat.ne_of_gt (hprog k 1))
      · exact absurd h1.symm (Nat.ne_of_gt (hprog k 2))
      · exact absurd h1.symm (Nat.ne_of_gt (hprog k 3))
      · exact absurd (keyList_lower rng hprog rest (rng.child k 0) k h1)
          (not_le_of_lt (hprog k 0))
    refine List.nodup_cons.mpr ⟨?_, ?_⟩
    · simp only [List.mem_cons]
      rintro (h1 | h1 | h1)
      · exact absurd (hinj k 1 k 2 h1).2 (by decide)
      · exact absurd (hinj k 1 k 3 h1).2 (by decide)
      · exact child_not_in_tail rng hinj hprog rest k 1 (by decide) h1
    refine List.nodup_cons.mpr ⟨?_, ?_⟩
    · simp only [List.mem_cons]
      rintro (h1 | h1)
      · exact absurd (hinj k 2 k 3 h1).2 (by decide)
      · exact child_not_in_tail rng hinj hprog rest k 2 (by decide) h1
    refine List.nodup_cons.mpr ⟨?_, ?_⟩
    · exact child_not_in_tail rng hinj hprog rest k 3 (by decide)
    · exact ih (rng.child k 0)

/-- With a single configured device, the consumed-key sequence of the sweep is
exactly `keyList`: at each size the root is split in four, child 1 feeds the
uniform draw, child 2 the normal draw, and child 3 the single per-chain
split. -/
theorem sizeLoop_single_device_keys (rng : Rng) (env : Env) (cfg : Config)
    (d : String) (hdev : cfg.devices = [d]) :
    ∀ (ns : List Nat) (key : Key),
      (sizeLoop rng env cfg key ns).events.map usedKey = keyList rng key ns := by
  intro ns
  induction ns with
  | nil => intro key; rfl
  | cons n rest ih =>
    intro key
    simp only [sizeLoop, hdev, deviceLoop]
    simp [keyList, usedKey, ih]

/-- Each recorded step's X-key, y-noise-key and chain-keys-root are children
1, 2 and 3 of the step's root key. -/
theorem sizeLoop_step_children (rng : Rng) (env : Env) (cfg : Config) :
    ∀ (ns : List Nat) (key : Key) (s : StepTrace),
      s ∈ (sizeLoop rng env cfg key ns).steps →
        s.xKey = rng.child s.root 1 ∧ s.yKey = rng.child s.root 2 ∧
          s.chainRoot = rng.child s.root 3 := by
  intro ns
  induction ns with
  | nil => intro key s hs; simp [sizeLoop] at hs
  | cons n rest ih =>
    intro key s hs
    rw [sizeLoop] at hs
    cases h2 : (deviceLoop rng env (rng.child key 3) cfg.nchains
        (some (env.mkState (gen_X rng (rng.child key 1) cfg.p n)
          (yInline rng (rng.child key 2) (gen_X rng (rng.child key 1) cfg.p n) n)))
        cfg.devices).2.2 with
    | some e =>
      rw [h2] at hs
      dsimp only at hs
      simp only [List.mem_singleton] at hs
      subst hs
      exact ⟨rfl, rfl, rfl⟩
    | none =>
      rw [h2] at hs
      dsimp only at hs
      simp only [List.mem_cons] at hs
      rcases hs with rfl | hs
      · exact ⟨rfl, rfl, rfl⟩
      · exact ih (rng.child key 0) s hs

/-- C2 (amended): with the single configured device, every pseudo-random key
is consumed at most once — the whole consumption sequence is duplicate-free
under an injective, strictly increasing key-derivation — and at every step
the dataset-X key, dataset-y-noise key and per-chain key root are distinct
children of the sweep key.  (With more than one configured device the
chain-keys-root is re-split on each device iteration, so the original
at-most-once claim fails; see the counterexample.) -/
theorem keys_consumed_once_single_device (rng : Rng) (env : Env) (cfg : Config)
    (d : String) (seed : Nat)
    (hinj : ∀ k i k2 i2, rng.child k i = rng.child k2 i2 → k = k2 ∧ i = i2)
    (hprog : ∀ k i, k < rng.child k i)
    (hdev : cfg.devices = [d]) :
    ((runSweep rng env cfg seed).events.map usedKey).Nodup ∧
      ∀ s ∈ (runSweep rng env cfg seed).steps,
        s.xKey ≠ s.yKey ∧ s.xKey ≠ s.chainRoot ∧ s.yKey ≠ s.chainRoot := by
  constructor
  · have hk : (runSweep rng env cfg seed).events.map usedKey
        = keyList rng (randomKey seed) cfg.nvec :=
      sizeLoop_single_device_keys rng env cfg d hdev cfg.nvec (randomKey seed)
    rw [hk]
    exact keyList_nodup rng hinj hprog cfg.nvec (randomKey seed)
  · intro s hs
    obtain ⟨h1, h2, h3⟩ := sizeLoop_step_children rng env cfg cfg.nvec
      (randomKey seed) s hs
    rw [h1, h2, h3]
    refine ⟨fun h => ?_, fun h => ?_, fun h => ?_⟩
    · exact absurd (hinj _ 1 _ 2 h).2 (by decide)
    · exact absurd (hinj _ 1 _ 3 h).2 (by decide)
    · exact absurd (hinj _ 2 _ 3 h).2 (by decide)

theorem keys_consumed_once_witness :
    ((runSweep rngW envW cfgOne 0).events.map usedKey).Nodup :=
  (keys_consumed_once_single_device rngW envW cfgOne "cpu" 0
    (fun _ _ _ _ h => Nat.pair_eq_pair.mp (Nat.succ_injective h))
    (fun k i => Nat.lt_succ_of_le (Nat.left_le_pair k i))
    rfl).1

/-- C2 counterexample: with two configured devices, the chain-keys-root of the
first size is passed to `random.split` once per device iteration, so at this
concrete input a key occurs twice in the consumption sequence and the
at-most-once invariant fails. -/
theorem keys_consumed_once_cex :
    ¬ (((runSweep rngW envW cfgTwo 0).events.map usedKey).Nodup) := by
  decide

theorem alGet_eq_none_of_not_mem (k : String) :
    ∀ d : Dict, k ∉ d.map Prod.fst → alGet d k = none := by
  intro d
  induction d with
  | nil => intro _; rfl
  | cons a rest ih =>
    obtain ⟨k1, v1⟩ := a
    intro h
    simp only [List.map_cons, List.mem_cons] at h
    push_neg at h
    rw [alGet, if_neg (fun he => h.1 he.symm)]
    exact ih h.2

theorem alGet_alSet (k : String) (v : Val) (k2 : String) :
    ∀ d : Dict, alGet (alSet d k v) k2 = if k = k2 then some v else alGet d k2 := by
  intro d
  induction d with
  | nil => rw [alSet, alGet, alGet, alGet]
  | cons a rest ih =>
    obtain ⟨k1, v1⟩ := a
    rw [alSet]
    by_cases h1 : k1 = k
    · subst h1
      rw [if_pos rfl, alGet]
      by_cases h2 : k1 = k2
      · rw [if_pos h2, if_pos h2]
      · rw [if_neg h2, if_neg h2, alGet, if_neg h2]
    · rw [if_neg h1, alGet]
      by_cases h2 : k1 = k2
      · have hne : ¬ k = k2 := fun he => h1 (h2.trans he.symm)
        rw [if_pos h2, if_neg hne, alGet, if_pos h2]
      · rw [if_neg h2, ih]
        by_cases h3 : k = k2
        · rw [if_pos h3, if_pos h3]
        · rw [if_neg h3, if_neg h3, alGet, if_neg h2]

theorem alGet_alUpdate :
    ∀ other d : Dict, (other.map Prod.fst).Nodup → ∀ k,
      alGet (alUpdate d other) k =
        match alGet other k with
        | some w => some w
        | none => alGet d k := by
  intro other
  induction other with
  | nil => intro d _ k; rfl
  | cons a rest ih =>
    obtain ⟨k1, v1⟩ := a
    intro d hn k
    rw [alUpdate, ih (alSet d k1 v1) (List.nodup_cons.mp hn).2 k]
    by_cases h : k1 = k
    · subst h
      have hr : alGet rest k1 = none :=
        alGet_eq_none_of_not_mem k1 rest (List.nodup_cons.mp hn).1
      rw [alGet, if_pos rfl, hr, alGet_alSet, if_pos rfl]
    · rw [alGet, if_neg h]
      cases alGet rest k with
      | some w => rfl
      | none => rw [alGet_alSet, if_neg h]

theorem alGet_alPop_self (k : String) :
    ∀ d : Dict, (d.map Prod.fst).Nodup → alGet (alPop d k) k = none := by
  intro d
  induction d with
  | nil => intro _; rfl
  | cons a rest ih =>
    obtain ⟨k1, v1⟩ := a
    intro h
    rw [alPop]
    by_cases h1 : k1 = k
    · subst h1
      rw [if_pos rfl]
      exact alGet_eq_none_of_not_mem k1 rest (List.nodup_cons.mp h).1
    · rw [if_neg h1, alGet, if_neg h1]
      exact ih (List.nodup_cons.mp h).2

theorem alGet_alPop_ne (k j : String) (h : j ≠ k) :
    ∀ d : Dict, alGet (alPop d k) j = alGet d j := by
  intro d
  induction d with
  | nil => rfl
  | cons a rest ih =>
    obtain ⟨k1, v1⟩ := a
    rw [alPop]
    by_cases h1 : k1 = k
    · subst h1
      rw [if_pos rfl, alGet, if_neg (fun he => h he.symm)]
    · rw [if_neg h1, alGet, alGet]
      by_cases h2 : k1 = j
      · rw [if_pos h2, if_pos h2]
      · rw [if_neg h2, if_neg h2, ih]

theorem alPop_fst_mem (k x : String) :
    ∀ d : Dict, x ∈ (alPop d k).map Prod.fst → x ∈ d.map Prod.fst := by
  intro d
  induction d with
  | nil => intro h; simp [alPop] at h
  | cons a rest ih =>
    obtain ⟨k1, v1⟩ := a
    rw [alPop]
    by_cases h1 : k1 = k
    · rw [if_pos h1]
      intro h
      exact List.mem_cons_of_mem k1 h
    · rw [if_neg h1]
      intro h
      simp only [List.map_cons, List.mem_cons] at h ⊢
      rcases h with h | h
      · exact Or.inl h
      · exact Or.inr (ih h)

theorem alPop_nodup (k : String) :
    ∀ d : Dict, (d.map Prod.fst).Nodup → ((alPop d k).map Prod.fst).Nodup := by
  intro d
  induction d with
  | nil => intro h; exact h
  | cons a rest ih =>
    obtain ⟨k1, v1⟩ := a
    intro h
    rw [alPop]
    by_cases h1 : k1 = k
    · rw [if_pos h1]
      exact (List.nodup_cons.mp h).2
    · rw [if_neg h1]
      refine List.nodup_cons.mpr ⟨?_, ih (List.nodup_cons.mp h).2⟩
      intro hmem
      exact (List.nodup_cons.mp h).1 (alPop_fst_mem k k1 rest hmem)

/-- Keys not named by any caller item are untouched by the merge loop, in both
accumulators. -/
theorem mergeLoop_untouched (j : String) :
    ∀ (items kwargs newkw : Dict), j ∉ items.map Prod.fst →
      alGet (mergeLoop kwargs newkw items).1 j = alGet kwargs j ∧
        alGet (mergeLoop kwargs newkw items).2 j = alGet newkw j := by
  intro items
  induction items with
  | nil => intro kwargs newkw _; exact ⟨rfl, rfl⟩
  | cons a rest ih =>
    obtain ⟨k1, v1⟩ := a
    intro kwargs newkw hj
    simp only [List.map_cons, List.mem_cons] at hj
    push_neg at hj
    rw [mergeLoop]
    by_cases hg : v1.isDict && isDictOpt (alGet kwargs k1)
    · rw [if_pos hg]
      obtain ⟨ha, hb⟩ := ih (alSet kwargs k1
        (Val.dict (alUpdate (optDict (alGet kwargs k1)) v1.dictOf)))
        (alPop newkw k1) hj.2
      refine ⟨?_, ?_⟩
      · rw [ha, alGet_alSet, if_neg (fun he => hj.1 he.symm)]
      · rw [hb, alGet_alPop_ne k1 j hj.1]
    · rw [if_neg hg]
      exact ih kwargs newkw hj.2

/-- The merge loop keeps the remaining-kwargs accumulator duplicate-free. -/
theorem mergeLoop_newkw_nodup :
    ∀ (items kwargs newkw : Dict), (newkw.map Prod.fst).Nodup →
      ((mergeLoop kwargs newkw items).2.map Prod.fst).Nodup := by
  intro items
  induction items with
  | nil => intro kwargs newkw h; exact h
  | cons a rest ih =>
    obtain ⟨k1, v1⟩ := a
    intro kwargs newkw h
    rw [mergeLoop]
    by_cases hg : v1.isDict && isDictOpt (alGet kwargs k1)
    · rw [if_pos hg]
      exact ih _ _ (alPop_nodup k1 newkw h)
    · rw [if_neg hg]
      exact ih kwargs newkw h

/-- Effect of the merge loop on a key the caller did pass: when both the
caller's value and the current value are dictionaries, the nested dictionary
is updated in place and the key disappears from the remaining kwargs;
otherwise both accumulators are untouched at that key. -/
theorem mergeLoop_processed (k : String) :
    ∀ items : Dict, (items.map Prod.fst).Nodup →
      ∀ kwargs newkw : Dict, (newkw.map Prod.fst).Nodup →
        ∀ v : Val, alGet items k = some v →
          if v.isDict && isDictOpt (alGet kwargs k) then
            alGet (mergeLoop kwargs newkw items).1 k
                = some (Val.dict (alUpdate (optDict (alGet kwargs k)) v.dictOf)) ∧
              alGet (mergeLoop kwargs newkw items).2 k = none
          else
            alGet (mergeLoop kwargs newkw items).1 k = alGet kwargs k ∧
              alGet (mergeLoop kwargs newkw items).2 k = alGet newkw k := by
  intro items
  induction items with
  | nil => intro _ kwargs newkw _ v hv; cases hv
  | cons a rest ih =>
    obtain ⟨k1, v1⟩ := a
    intro hno kwargs newkw hnk v hv
    rw [mergeLoop]
    by_cases hk : k1 = k
    · subst hk
      have hv1 : v1 = v := by
        rw [alGet, if_pos rfl] at hv
        exact Option.some.inj hv
      subst hv1
      have hrest : k1 ∉ rest.map Prod.fst := (List.nodup_cons.mp hno).1
      by_cases hg : v1.isDict && isDictOpt (alGet kwargs k1)
      · rw [if_pos hg, if_pos hg]
        obtain ⟨ha, hb⟩ := mergeLoop_untouched k1 rest
          (alSet kwargs k1 (Val.dict (alUpdate (optDict (alGet kwargs k1)) v1.dictOf)))
          (alPop newkw k1) hrest
        refine ⟨?_, ?_⟩
        · rw [ha, alGet_alSet, if_pos rfl]
        · rw [hb, alGet_alPop_self k1 newkw hnk]
      · rw [if_neg hg, if_neg hg]
        exact mergeLoop_untouched k1 rest kwargs newkw hrest
    · have hv2 : alGet rest k = some v := by
        rw [alGet, if_neg hk] at hv
        exact hv
      by_cases hg1 : v1.isDict && isDictOpt (alGet kwargs k1)
      · rw [if_pos hg1]
        have ihr := ih (List.nodup_cons.mp hno).2
          (alSet kwargs k1 (Val.dict (alUpdate (optDict (alGet kwargs k1)) v1.dictOf)))
          (alPop newkw k1) (alPop_nodup k1 newkw hnk) v hv2
        rw [alGet_alSet, if_neg hk] at ihr
        rw [alGet_alPop_ne k1 k (fun he => hk he.symm)] at ihr
        exact ihr
      · rw [if_neg hg1]
        exact ih (List.nodup_cons.mp hno).2 kwargs newkw hnk v hv2

/-- C9: for every `textbox` call with a valid location and duplicate-free
caller kwargs, a caller argument that is a dictionary whose current default
(after the location update) is also a dictionary is merged field-by-field —
each caller-set property overrides the default, every unset property of that
group keeps its default — while any other caller argument replaces the default
outright in the kwargs passed to `annotate`. -/
theorem textbox_merges_nested_defaults (loc : String) (kw lp : Dict)
    (hloc : locparams loc = some lp)
    (hkw : (kw.map Prod.fst).Nodup)
    (k : String) (v : Val) (hk : alGet kw k = some v) :
    ∃ res, textbox loc kw = some res ∧
      (if v.isDict && isDictOpt (alGet (alUpdate defaultKwargs lp) k) then
        alGet res k = some (Val.dict
            (alUpdate (optDict (alGet (alUpdate defaultKwargs lp) k)) v.dictOf)) ∧
          ((v.dictOf.map Prod.fst).Nodup → ∀ fk,
            alGet (alUpdate (optDict (alGet (alUpdate defaultKwargs lp) k)) v.dictOf) fk
              = match alGet v.dictOf fk with
                | some w => some w
                | none => alGet (optDict (alGet (alUpdate defaultKwargs lp) k)) fk)
      else alGet res k = some v) := by
  refine ⟨alUpdate (mergeLoop (alUpdate defaultKwargs lp) kw kw).1
      (mergeLoop (alUpdate defaultKwargs lp) kw kw).2, ?_, ?_⟩
  · rw [textbox, hloc]
  · have hm := mergeLoop_processed k kw hkw (alUpdate defaultKwargs lp) kw hkw v hk
    have hnn := mergeLoop_newkw_nodup kw (alUpdate defaultKwargs lp) kw hkw
    by_cases hg : v.isDict && isDictOpt (alGet (alUpdate defaultKwargs lp) k)
    · rw [if_pos hg] at hm ⊢
      refine ⟨?_, fun hdv fk => alGet_alUpdate v.dictOf
        (optDict (alGet (alUpdate defaultKwargs lp) k)) hdv fk⟩
      rw [alGet_alUpdate _ _ hnn k, hm.2]
      exact hm.1
    · rw [if_neg hg] at hm ⊢
      rw [alGet_alUpdate _ _ hnn k, hm.2, hk]

def kwW : Dict := [("bbox", Val.dict [("alpha", Val.num 1)])]

def lpW : Dict :=
  [("xy", Val.xyV 0 0), ("xytext", Val.xyV Mq Mq),
   ("va", Val.str "bottom"), ("ha", Val.str "left")]

theorem textbox_merges_witness : (textbox "lower left" kwW).isSome := by
  obtain ⟨res, hres, -⟩ := textbox_merges_nested_defaults "lower left" kwW lpW
    rfl (by simp [kwW]) "bbox" (Val.dict [("alpha", Val.num 1)]) rfl
  rw [hres]
  rfl

end BenchDevice
